import Mathlib

/-!
Shallow embedding of the dashboard-linter core (Go) in Lean 4.

Source files embedded:
  * `lint/configuration.go` — `ConfigurationEntry.IsMatch`, `ConfigurationFile.Apply`
  * `lint/results.go` — `ResultSet.Configure/AddResult/MaximumSeverity/ByRule`

Go conventions used in the translation:
  * a Go nil-able pointer field becomes `Option _`;
  * a Go `map[string]*T` becomes an association list `List (String × Option T)`
    (a key present with a nil pointer is `(k, none)`); lookup is first-match;
  * Go `strconv.Atoi` becomes `atoi` below (sign + decimal digits with the
    int64 range check of `ParseInt(s, 10, 0)` on a 64-bit platform);
  * Go's `sort.SliceStable` with a strict `less` on a key is the stable sort by
    that key, i.e. insertion sort that puts `a` before `b` iff `key a ≤ key b`;
    the nil-pointer dereference inside its comparison function is made explicit
    by an `Option`-valued sort that is `none` exactly when Go would panic.
-/

namespace DashboardLinter

/-- Modelled from the spec: the `Severity` constants are declared in a file that
is not under `src/` (only used there).  §3 fixes passing < excluded < warning <
failing; the placement of the do-not-report point is an open question (§9) and
is irrelevant to the claims, it is placed above failing here. -/
inductive Severity where
  | Success
  | Exclude
  | Warning
  | Error
  | Quiet
deriving DecidableEq, Repr

/-- The underlying integer of a `Severity` constant (Go `Severity` is an `int`
enumeration in declaration order). -/
def Severity.toNat : Severity → Nat
  | .Success => 0
  | .Exclude => 1
  | .Warning => 2
  | .Error => 3
  | .Quiet => 4

/-- Modelled from the spec: the `Dashboard` struct is declared outside `src/`;
only the title is read by the embedded operations (§3). -/
structure Dashboard where
  Title : String
deriving DecidableEq, Repr

/-- Modelled from the spec: the `Target` struct is declared outside `src/`;
one query plus its positional index within the panel (§3). -/
structure Target where
  Idx : Int
  Expr : String
deriving DecidableEq, Repr

/-- Modelled from the spec: the `Panel` struct is declared outside `src/`;
title, visualization type, list of targets (§3). -/
structure Panel where
  Title : String
  /-- the Go field is named `Type`, a reserved word here -/
  Type' : String
  Targets : List Target
deriving DecidableEq, Repr

/-- Modelled from the spec: the `Rule` interface is declared outside `src/`;
it is modelled by its observable methods `Name` and `Description` (§4.2). -/
structure Rule where
  name : String
  description : String
deriving DecidableEq, Repr

/-- `Result` from `lint/results.go`: severity plus human-readable message. -/
structure Result where
  Severity : Severity
  Message : String
deriving DecidableEq, Repr

/-- `ResultContext` from `lint/results.go`: a result plus the rule that
produced it and the (nil-able) dashboard/panel/target scope. -/
structure ResultContext where
  Result : Result
  Rule : Rule
  Dashboard : Option Dashboard
  Panel : Option Panel
  Target : Option Target
deriving DecidableEq, Repr

/-- `ConfigurationEntry` from `lint/configuration.go`.  `TargetIdx` is a
string because a 0 index is valid but is also the zero value of an int. -/
structure ConfigurationEntry where
  Reason : String
  Dashboard : String
  Panel : String
  TargetIdx : String
deriving DecidableEq, Repr

/-- `ConfigurationRuleEntries` from `lint/configuration.go`. -/
structure ConfigurationRuleEntries where
  Reason : String
  Entries : List ConfigurationEntry
deriving DecidableEq, Repr

/-- A Go `map[string]*ConfigurationRuleEntries`, as an association list whose
values are nil-able pointers. -/
def RuleEntryMap : Type := List (String × Option ConfigurationRuleEntries)

/-- `ConfigurationFile` from `lint/configuration.go`: exclusions and warnings
keyed by rule name. -/
structure ConfigurationFile where
  Exclusions : RuleEntryMap
  Warnings : RuleEntryMap

/-- Go map indexing `m[k]` together with the `ok` flag: `none` when the key is
absent, `some v` (with `v` the stored nil-able pointer) when present. -/
def lookupRule (m : RuleEntryMap) (k : String) : Option (Option ConfigurationRuleEntries) :=
  (List.find? (fun p => p.1 == k) m).map (fun p => p.2)

/-- Go `strconv.Atoi`, i.e. `ParseInt(s, 10, 0)` with `int` = `int64`: an
optional sign followed by at least one decimal digit, and the int64 range
check — a magnitude beyond `2^63 - 1` (or `2^63` for a negative number)
returns `ErrRange`, so the call errs (`none`) exactly as it does on a syntax
error. -/
def atoi (s : String) : Option Int :=
  let digitsVal : List Char → Int := fun cs =>
    Int.ofNat (cs.foldl (fun a c => a * 10 + c.toNat - 48) 0)
  match s.data with
  | [] => none
  | '+' :: cs =>
    if cs ≠ [] ∧ cs.all Char.isDigit then
      if digitsVal cs ≤ 2 ^ 63 - 1 then some (digitsVal cs) else none
    else none
  | '-' :: cs =>
    if cs ≠ [] ∧ cs.all Char.isDigit then
      if digitsVal cs ≤ 2 ^ 63 then some (-(digitsVal cs)) else none
    else none
  | cs =>
    if cs.all Char.isDigit then
      if digitsVal cs ≤ 2 ^ 63 - 1 then some (digitsVal cs) else none
    else none

/-- `ConfigurationEntry.IsMatch` from `lint/configuration.go` lines 40–58:
a `ret` flag that each present context field may reset to `false`. -/
def ConfigurationEntry.IsMatch (ce : ConfigurationEntry) (r : ResultContext) : Bool :=
  let ret := true
  let ret :=
    match r.Dashboard with
    | some d => if ce.Dashboard != d.Title then false else ret
    | none => ret
  let ret :=
    match r.Panel with
    | some p => if ce.Panel != p.Title then false else ret
    | none => ret
  let ret :=
    match r.Target with
    | some t =>
      if ce.TargetIdx != "" then
        match atoi ce.TargetIdx with
        | some idx => if idx != t.Idx then false else ret
        | none => ret
      else ret
    | none => ret
  ret

/-- One pass of `ConfigurationFile.Apply` (the two blocks in lines 61–80 and
82–100 of `lint/configuration.go` are textually identical up to the map):
computes the `matched` flag for the given map. -/
def passMatched (m : RuleEntryMap) (res : ResultContext) : Bool :=
  match lookupRule m res.Rule.name with
  | some (some cre) =>
    let matched := cre.Entries.foldl (fun mt ce => if ce.IsMatch res then true else mt) false
    if cre.Entries.length == 0 then true else matched
  | some none => true
  | none => false

/-- The exclusion block of `ConfigurationFile.Apply` (lines 61–80). -/
def applyExclusions (cf : ConfigurationFile) (res : ResultContext) : ResultContext :=
  if passMatched cf.Exclusions res then
    { res with Result := { Severity := Severity.Exclude,
                           Message := res.Result.Message ++ " (Excluded)" } }
  else res

/-- The warning block of `ConfigurationFile.Apply` (lines 82–100). -/
def applyWarnings (cf : ConfigurationFile) (res : ResultContext) : ResultContext :=
  if passMatched cf.Warnings res then
    { res with Result := { res.Result with Severity := Severity.Warning } }
  else res

/-- `ConfigurationFile.Apply` from `lint/configuration.go` lines 60–103:
exclusion pass then warning pass. -/
def ConfigurationFile.Apply (cf : ConfigurationFile) (res : ResultContext) : ResultContext :=
  applyWarnings cf (applyExclusions cf res)

/-- `ResultSet` from `lint/results.go`: result list plus optional attached
configuration. -/
structure ResultSet where
  results : List ResultContext
  config : Option ConfigurationFile

/-- `ResultSet.Configure` from `lint/results.go`: attach the configuration and
re-apply it to every result already present. -/
def ResultSet.Configure (rs : ResultSet) (c : ConfigurationFile) : ResultSet :=
  { results := rs.results.map (fun r => c.Apply r), config := some c }

/-- `ResultSet.AddResult` from `lint/results.go`: append, applying the current
configuration first when one is attached. -/
def ResultSet.AddResult (rs : ResultSet) (r : ResultContext) : ResultSet :=
  match rs.config with
  | some c => { rs with results := rs.results ++ [c.Apply r] }
  | none => { rs with results := rs.results ++ [r] }

/-- `ResultSet.MaximumSeverity` from `lint/results.go`: fold with the Go `>`
comparison on the severity integers, starting from `Success`. -/
def ResultSet.MaximumSeverity (rs : ResultSet) : Severity :=
  rs.results.foldl
    (fun retVal res =>
      if retVal.toNat < res.Result.Severity.toNat then res.Result.Severity else retVal)
    Severity.Success

/-- The ResultSet Go zero value: no results, no configuration attached. -/
def emptyResultSet : ResultSet :=
  { results := [], config := none }

/-- The nil-able dashboard title read by `ByRule`'s sort comparison
(`rule[i].Dashboard.Title`): `none` when `Dashboard` is a nil pointer. -/
def dashTitle? (r : ResultContext) : Option String :=
  r.Dashboard.map Dashboard.Title

/-- The comparison key with the nil pointer dereference forced; only used
under the hypothesis that the dashboard is present. -/
def titleD (r : ResultContext) : String :=
  (dashTitle? r).getD ""

/-- The placement relation of Go's `sort.SliceStable` with
`less i j = rule[i].Dashboard.Title < rule[j].Dashboard.Title`: in the stable
sort `a` stays left of `b` iff `¬ less b a`, i.e. `title a ≤ title b`. -/
def titleLe (a b : ResultContext) : Prop :=
  titleD a ≤ titleD b

/-- Strict title order, for the uniqueness-of-sorted-permutation argument. -/
def titleLt (a b : ResultContext) : Prop :=
  titleD a < titleD b

instance : DecidableRel titleLe :=
  fun a b => inferInstanceAs (Decidable (titleD a ≤ titleD b))

instance : IsTotal ResultContext titleLe :=
  ⟨fun a b => le_total (titleD a) (titleD b)⟩

instance : IsTrans ResultContext titleLe :=
  ⟨fun _ _ _ => le_trans⟩

instance : IsAntisymm ResultContext titleLt :=
  ⟨fun a _ h1 h2 => absurd (lt_trans h1 h2) (lt_irrefl (titleD a))⟩

/-- One insertion step of the stable sort in `ByRule`, with the nil pointer
dereference of the Go comparison made explicit: `none` exactly when a
comparison touches a context whose `Dashboard` is nil. -/
def orderedInsert? (a : ResultContext) : List ResultContext → Option (List ResultContext)
  | [] => some [a]
  | b :: l =>
    match dashTitle? a, dashTitle? b with
    | some x, some y =>
      if x ≤ y then some (a :: b :: l)
      else (orderedInsert? a l).map (fun l2 => b :: l2)
    | _, _ => none

/-- The stable sort of `ByRule` (`sort.SliceStable` by dashboard title),
propagating the nil dereference. -/
def insertionSort? : List ResultContext → Option (List ResultContext)
  | [] => some []
  | b :: l => (insertionSort? l).bind (orderedInsert? b)

/-- The value the Go `ByRule` map holds at key `n` before sorting: the
results whose rule name is `n`, in insertion order (the map entry is built by
appending during one traversal of `rs.results`). -/
def groupByRule (results : List ResultContext) (n : String) : List ResultContext :=
  results.filter (fun res => res.Rule.name == n)

/-- `ResultSet.ByRule` from `lint/results.go` at one key `n` of the returned
map (the Go map is modelled by its lookup function): group by rule name, then
`sort.SliceStable` by `Dashboard.Title`, whose comparison dereferences the
`Dashboard` pointer without a nil check — `none` models that panic. -/
def ResultSet.ByRule (rs : ResultSet) (n : String) : Option (List ResultContext) :=
  insertionSort? (groupByRule rs.results n)

/-- Follows the words of the spec (not the source), for comparison with
`ConfigurationEntry.IsMatch`: every field the entry sets must find the
corresponding context field present and equal; unset fields are not checked. -/
def specIsMatch (ce : ConfigurationEntry) (r : ResultContext) : Bool :=
  (ce.Dashboard == "" ||
    (match r.Dashboard with
     | some d => ce.Dashboard == d.Title
     | none => false)) &&
  (ce.Panel == "" ||
    (match r.Panel with
     | some p => ce.Panel == p.Title
     | none => false)) &&
  (ce.TargetIdx == "" ||
    (match r.Target, atoi ce.TargetIdx with
     | some t, some i => i == t.Idx
     | _, _ => false))

/-!
### Panel job/instance rule (spec-modelled)

The rule implementation (`NewPanelJobInstanceRule`) and the PromQL selector
validation it relies on are not under `src/` — only the rule's test is.  The
definitions below are modelled from the spec: §4.3 (parse the query into a
tree and enumerate every vector selector with its label matchers of the form
`label op "value"`, op exact-match or regex-match; parse failure is a distinct
outcome) and §4.2 (per-target checks in fixed order with the exact messages,
fail-open on parse failure).  The parser covers the query-language subset the
spec needs: identifiers, single-argument calls, selectors with optional
matcher braces and optional range suffix — §1 declares anything more a
non-goal.
-/

/-- Modelled from the spec: exact-match (`=`) or regex-match (`=~`) label
matcher operators (§4.3, glossary). -/
inductive MatchOp where
  | eq
  | re
deriving DecidableEq, Repr

/-- Modelled from the spec: one `label op "value"` matcher (§4.3). -/
structure LabelMatcher where
  name : String
  op : MatchOp
  value : String
deriving DecidableEq, Repr

/-- Modelled from the spec: a vector selector — metric name plus label
matchers (§4.3, glossary). -/
structure Selector where
  metric : String
  matchers : List LabelMatcher
deriving DecidableEq, Repr

/-- Characters of an identifier / metric name in the modelled query subset. -/
def isIdentChar (c : Char) : Bool :=
  c.isAlpha || c.isDigit || c == '_'

/-- Modelled from the spec: longest identifier at the front of the input;
fails on empty. -/
def parseIdent (cs : List Char) : Option (String × List Char) :=
  let tk := cs.takeWhile isIdentChar
  if tk.isEmpty then none
  else some (String.mk tk, cs.dropWhile isIdentChar)

/-- Modelled from the spec: a double-quoted matcher value (§4.3). -/
def parseStringLit (cs : List Char) : Option (String × List Char) :=
  match cs with
  | '\x22' :: rest =>
    let v := rest.takeWhile (fun c => c != '\x22')
    match rest.dropWhile (fun c => c != '\x22') with
    | '\x22' :: rest2 => some (String.mk v, rest2)
    | _ => none
  | _ => none

/-- Modelled from the spec: one `label op "value"` matcher, op `=` or `=~`
(§4.3). -/
def parseMatcher (cs : List Char) : Option (LabelMatcher × List Char) :=
  match parseIdent cs with
  | none => none
  | some (nm, rest) =>
    match rest with
    | '=' :: '~' :: rest2 =>
      match parseStringLit rest2 with
      | some (v, rest3) => some (⟨nm, MatchOp.re, v⟩, rest3)
      | none => none
    | '=' :: rest2 =>
      match parseStringLit rest2 with
      | some (v, rest3) => some (⟨nm, MatchOp.eq, v⟩, rest3)
      | none => none
    | _ => none

/-- Modelled from the spec: comma-separated matchers; fuelled recursion. -/
def parseMatcherList : Nat → List Char → Option (List LabelMatcher × List Char)
  | 0, _ => none
  | fuel+1, cs =>
    match parseMatcher cs with
    | none => none
    | some (m, ',' :: rest) =>
      match parseMatcherList fuel rest with
      | some (ms, rest2) => some (m :: ms, rest2)
      | none => none
    | some (m, rest) => some ([m], rest)

/-- Modelled from the spec: a bracketed range suffix such as `[5m]`. -/
def parseRange (cs : List Char) : Option (List Char) :=
  match cs with
  | '[' :: rest =>
    let body := rest.takeWhile (fun c => c.isAlphanum)
    if body.isEmpty then none
    else
      match rest.dropWhile (fun c => c.isAlphanum) with
      | ']' :: rest2 => some rest2
      | _ => none
  | _ => none

/-- Modelled from the spec: an expression of the modelled subset — an
identifier followed by a call argument, matcher braces with optional range,
a bare range, or nothing — returning the selectors in traversal order (§4.3).
Anything else at the expected position is a parse failure. -/
def parseExpr : Nat → List Char → Option (List Selector × List Char)
  | 0, _ => none
  | fuel+1, cs =>
    match parseIdent cs with
    | none => none
    | some (nm, rest) =>
      match rest with
      | '(' :: rest2 =>
        match parseExpr fuel rest2 with
        | some (sels, ')' :: rest3) => some (sels, rest3)
        | _ => none
      | '\x7b' :: rest2 =>
        match parseMatcherList fuel rest2 with
        | some (ms, '\x7d' :: rest3) =>
          match rest3 with
          | '[' :: _ =>
            match parseRange rest3 with
            | some rest4 => some ([⟨nm, ms⟩], rest4)
            | none => none
          | _ => some ([⟨nm, ms⟩], rest3)
        | _ => none
      | '[' :: _ =>
        match parseRange rest with
        | some rest2 => some ([⟨nm, []⟩], rest2)
        | none => none
      | _ => some ([⟨nm, []⟩], rest)

/-- Modelled from the spec: parse a whole query; trailing input is a parse
failure (§4.3 — e.g. `foo(bar.baz)` does not parse). -/
def parseQuery (s : String) : Option (List Selector) :=
  match parseExpr (s.length + 1) s.data with
  | some (sels, []) => some sels
  | _ => none

/-- Modelled from the spec: the three checks for one label, in order —
matcher exists, operator is `=~`, value is the template reference — returning
the first failure message (§4.2). -/
def checkSelectorLabel (s : Selector) (lbl : String) (tmpl : String) : Option String :=
  match s.matchers.find? (fun m => m.name == lbl) with
  | none => some (lbl ++ " selector not found")
  | some m =>
    if m.op != MatchOp.re then some (lbl ++ " selector is =, not =~")
    else if m.value != tmpl then
      some (lbl ++ " selector is " ++ m.value ++ ", not " ++ tmpl)
    else none

/-- Modelled from the spec: job checks first, then instance checks (§4.2). -/
def checkSelector (s : Selector) : Option String :=
  match checkSelectorLabel s "job" "$job" with
  | some e => some e
  | none => checkSelectorLabel s "instance" "$instance"

/-- Modelled from the spec: lint one target — parse failure is
non-applicability (`none`, no finding); otherwise the first failing selector
in traversal order yields a failing `Result` with the prefixed message
(§4.2). -/
def lintTarget (d : Dashboard) (p : Panel) (t : Target) : Option Result :=
  match parseQuery t.Expr with
  | none => none
  | some sels =>
    match sels.findSome? checkSelector with
    | some msg =>
      some ⟨Severity.Error,
        "Dashboard \x27" ++ d.Title ++ "\x27, panel \x27" ++ p.Title ++
          "\x27 invalid PromQL query \x27" ++ t.Expr ++ "\x27: " ++ msg⟩
    | none => none

/-- Modelled from the spec: the panel job/instance rule's panel entry point —
the first failing target's result, else the passing floor with message "OK"
(§4.2). -/
def panelJobInstanceLintPanel (d : Dashboard) (p : Panel) : Result :=
  match p.Targets.findSome? (lintTarget d p) with
  | some r => r
  | none => ⟨Severity.Success, "OK"⟩

/-! ### Helper lemmas -/

theorem foldl_ismatch_eq_any (res : ResultContext) (l : List ConfigurationEntry) (b : Bool) :
    l.foldl (fun mt ce => if ce.IsMatch res then true else mt) b
      = (b || l.any (fun ce => ce.IsMatch res)) := by
  induction l generalizing b with
  | nil => simp
  | cons a l ih =>
    rw [List.foldl_cons, ih, List.any_cons]
    cases h : a.IsMatch res <;> simp [h]

theorem foldl_or_ismatch_eq_any (res : ResultContext) (l : List ConfigurationEntry) (b : Bool) :
    l.foldl (fun mt ce => ce.IsMatch res || mt) b
      = (b || l.any (fun ce => ce.IsMatch res)) := by
  induction l generalizing b with
  | nil => simp
  | cons a l ih =>
    rw [List.foldl_cons, ih, List.any_cons]
    cases a.IsMatch res <;> cases b <;> simp

/-- `IsMatch` as the conjunction of the three per-field checks. -/
theorem isMatch_eq_checks (ce : ConfigurationEntry) (r : ResultContext) :
    ce.IsMatch r =
      (((match r.Dashboard with
          | some d => ce.Dashboard == d.Title
          | none => true) &&
        (match r.Panel with
          | some p => ce.Panel == p.Title
          | none => true)) &&
       (match r.Target with
        | some t =>
          (ce.TargetIdx == "") ||
            (match atoi ce.TargetIdx with
             | some i => i == t.Idx
             | none => true)
        | none => true)) := by
  unfold ConfigurationEntry.IsMatch
  rcases r.Dashboard with _ | d <;> rcases r.Panel with _ | p <;> rcases r.Target with _ | t <;>
    simp only [bne] <;>
    (try cases hb : ce.Dashboard == d.Title) <;>
    (try cases hp : ce.Panel == p.Title) <;>
    (try cases he : ce.TargetIdx == "") <;>
    (try rcases ha : atoi ce.TargetIdx with _ | i) <;>
    (try cases hi : i == t.Idx) <;>
    simp_all [beq_eq_decide]

theorem isMatch_update_result (ce : ConfigurationEntry) (res : ResultContext) (q : Result) :
    ce.IsMatch { res with Result := q } = ce.IsMatch res := rfl

theorem passMatched_applyExclusions (m : RuleEntryMap) (cf : ConfigurationFile)
    (res : ResultContext) :
    passMatched m (applyExclusions cf res) = passMatched m res := by
  unfold applyExclusions
  split <;> rfl

theorem passMatched_of_lookup_none {m : RuleEntryMap} {res : ResultContext}
    (h : lookupRule m res.Rule.name = none) : passMatched m res = false := by
  unfold passMatched
  rw [h]

theorem passMatched_of_empty_entries {m : RuleEntryMap} {res : ResultContext}
    {cre : ConfigurationRuleEntries}
    (h : lookupRule m res.Rule.name = some (some cre)) (he : cre.Entries = []) :
    passMatched m res = true := by
  unfold passMatched
  rw [h]
  simp [he]

theorem passMatched_of_nonempty_entries {m : RuleEntryMap} {res : ResultContext}
    {cre : ConfigurationRuleEntries}
    (h : lookupRule m res.Rule.name = some (some cre)) (he : cre.Entries ≠ []) :
    (passMatched m res = true ↔ ∃ ce ∈ cre.Entries, ce.IsMatch res = true) := by
  unfold passMatched
  rw [h]
  simp [foldl_ismatch_eq_any, foldl_or_ismatch_eq_any, he, List.any_eq_true]

theorem applyExclusions_not_matched {cf : ConfigurationFile} {res : ResultContext}
    (h : passMatched cf.Exclusions res = false) : applyExclusions cf res = res := by
  simp [applyExclusions, h]

theorem applyWarnings_not_matched {cf : ConfigurationFile} {res : ResultContext}
    (h : passMatched cf.Warnings res = false) : applyWarnings cf res = res := by
  simp [applyWarnings, h]

theorem foldl_addResult_noconfig (rs : List ResultContext) (l : List ResultContext) :
    l.foldl ResultSet.AddResult ⟨rs, none⟩ = ⟨rs ++ l, none⟩ := by
  induction l generalizing rs with
  | nil => simp
  | cons a l ih =>
    simp only [List.foldl_cons, ResultSet.AddResult, ih]
    simp

theorem foldl_addResult_config (c : ConfigurationFile) (rs : List ResultContext)
    (l : List ResultContext) :
    l.foldl ResultSet.AddResult ⟨rs, some c⟩ = ⟨rs ++ l.map (fun r => c.Apply r), some c⟩ := by
  induction l generalizing rs with
  | nil => simp
  | cons a l ih =>
    simp only [List.foldl_cons, ResultSet.AddResult, ih]
    simp

theorem maxsev_foldl (l : List ResultContext) (init : Severity) :
    (l.foldl
        (fun rv res =>
          if rv.toNat < res.Result.Severity.toNat then res.Result.Severity else rv) init
        = init ∨
      l.foldl
        (fun rv res =>
          if rv.toNat < res.Result.Severity.toNat then res.Result.Severity else rv) init
        ∈ l.map (fun r => r.Result.Severity)) ∧
    init.toNat ≤
      (l.foldl
        (fun rv res =>
          if rv.toNat < res.Result.Severity.toNat then res.Result.Severity else rv) init).toNat ∧
    ∀ r ∈ l, r.Result.Severity.toNat ≤
      (l.foldl
        (fun rv res =>
          if rv.toNat < res.Result.Severity.toNat then res.Result.Severity else rv) init).toNat := by
  induction l generalizing init with
  | nil => simp
  | cons a l ih =>
    simp only [List.foldl_cons, List.map_cons, List.mem_cons]
    by_cases h : init.toNat < a.Result.Severity.toNat
    · rw [if_pos h]
      rcases ih a.Result.Severity with ⟨h1, h2, h3⟩
      refine ⟨?_, ?_, ?_⟩
      · rcases h1 with h1 | h1
        · exact Or.inr (Or.inl h1)
        · exact Or.inr (Or.inr h1)
      · exact le_trans (le_of_lt h) h2
      · intro r hr
        rcases hr with rfl | hr
        · exact h2
        · exact h3 r hr
    · rw [if_neg h]
      rcases ih init with ⟨h1, h2, h3⟩
      refine ⟨?_, h2, ?_⟩
      · rcases h1 with h1 | h1
        · exact Or.inl h1
        · exact Or.inr (Or.inr h1)
      · intro r hr
        rcases hr with rfl | hr
        · exact le_trans (Nat.le_of_not_lt h) h2
        · exact h3 r hr

theorem severity_toNat_eq_zero {s : Severity} (h : s.toNat = 0) : s = Severity.Success := by
  cases s <;> first | rfl | exact absurd h (by decide)

theorem orderedInsert?_perm {a : ResultContext} :
    ∀ {l s : List ResultContext}, orderedInsert? a l = some s → s.Perm (a :: l) := by
  intro l
  induction l with
  | nil =>
    intro s h
    cases h
    exact List.Perm.refl _
  | cons b l ih =>
    intro s h
    unfold orderedInsert? at h
    rcases hx : dashTitle? a with _ | x
    · simp [hx] at h
    rcases hy : dashTitle? b with _ | y
    · simp [hx, hy] at h
    simp only [hx, hy] at h
    by_cases hxy : x ≤ y
    · rw [if_pos hxy] at h
      cases h
      exact List.Perm.refl _
    · rw [if_neg hxy] at h
      rcases ho : orderedInsert? a l with _ | s'
      · rw [ho] at h
        exact absurd h (by simp)
      · rw [ho] at h
        cases h
        exact ((ih ho).cons b).trans (List.Perm.swap a b l)

theorem insertionSort?_perm :
    ∀ {l s : List ResultContext}, insertionSort? l = some s → s.Perm l := by
  intro l
  induction l with
  | nil =>
    intro s h
    cases h
    exact List.Perm.refl _
  | cons a l ih =>
    intro s h
    unfold insertionSort? at h
    rcases hs : insertionSort? l with _ | s₁ <;> rw [hs] at h
    · exact absurd h (by simp)
    · exact (orderedInsert?_perm h).trans ((ih hs).cons a)

theorem orderedInsert?_of_isSome (a : ResultContext) :
    ∀ l : List ResultContext, (dashTitle? a).isSome → (∀ r ∈ l, (dashTitle? r).isSome) →
      orderedInsert? a l = some (List.orderedInsert titleLe a l) := by
  intro l
  induction l with
  | nil => intro _ _; rfl
  | cons b l ih =>
    intro ha hl
    obtain ⟨x, hx⟩ := Option.isSome_iff_exists.mp ha
    obtain ⟨y, hy⟩ := Option.isSome_iff_exists.mp (hl b (List.mem_cons_self b l))
    have hta : titleD a = x := by simp [titleD, hx]
    have htb : titleD b = y := by simp [titleD, hy]
    unfold orderedInsert?
    rw [List.orderedInsert]
    simp only [hx, hy]
    by_cases hxy : x ≤ y
    · rw [if_pos hxy, if_pos (show titleLe a b by rw [titleLe, hta, htb]; exact hxy)]
    · rw [if_neg hxy, if_neg (show ¬ titleLe a b by rw [titleLe, hta, htb]; exact hxy),
        ih ha (fun r hr => hl r (List.mem_cons_of_mem b hr))]
      rfl

theorem insertionSort?_of_isSome :
    ∀ l : List ResultContext, (∀ r ∈ l, (dashTitle? r).isSome) →
      insertionSort? l = some (List.insertionSort titleLe l) := by
  intro l
  induction l with
  | nil => intro _; rfl
  | cons a l ih =>
    intro hl
    unfold insertionSort?
    rw [ih (fun r hr => hl r (List.mem_cons_of_mem a hr)), Option.some_bind]
    exact orderedInsert?_of_isSome a _ (hl a (List.mem_cons_self a l))
      (fun r hr => hl r (List.mem_cons_of_mem a ((List.mem_insertionSort titleLe).mp hr)))

theorem insertionSort?_eq_none_iff (l : List ResultContext) :
    insertionSort? l = none ↔ 2 ≤ l.length ∧ ∃ r ∈ l, dashTitle? r = none := by
  induction l with
  | nil => simp [insertionSort?]
  | cons a l ih =>
    unfold insertionSort?
    rcases hs : insertionSort? l with _ | s
    · have hl := ih.mp hs
      simp only [Option.none_bind]
      constructor
      · intro _
        exact ⟨by simp; omega, hl.2.choose,
          List.mem_cons_of_mem a hl.2.choose_spec.1, hl.2.choose_spec.2⟩
      · intro _
        trivial
    · have hns := (ih.not.mp (by simp [hs]))
      push_neg at hns
      simp only [Option.some_bind]
      rcases hl0 : l with _ | ⟨b, l'⟩
      · subst hl0
        have : s = [] := List.Perm.eq_nil (insertionSort?_perm hs)
        subst this
        simp [orderedInsert?]
      · rw [← hl0]
        have hlen : 1 ≤ l.length := by rw [hl0]; simp
        have hlen2 : 2 ≤ (a :: l).length := by simp; omega
        have hsne : s ≠ [] := by
          intro h
          have hp := insertionSort?_perm hs
          rw [h] at hp
          have hlnil : l = [] := hp.symm.eq_nil
          rw [hl0] at hlnil
          exact List.noConfusion hlnil
        rcases hsa : dashTitle? a with _ | x
        · -- comparison with `a` dereferences nil
          rcases hs0 : s with _ | ⟨c, s'⟩
          · exact absurd hs0 hsne
          · constructor
            · intro _
              exact ⟨hlen2, a, List.mem_cons_self a l, hsa⟩
            · intro _
              simp [orderedInsert?, hsa]
        · by_cases hnil : ∃ r ∈ l, dashTitle? r = none
          · -- a nil sits in `l`; since the tail sorted fine, `l` is a singleton
            have hl1 : l.length ≤ 1 := by
              by_contra hgt
              exact absurd (hns (by omega)) (by push_neg; exact hnil)
            have hl1' : l' = [] := by
              have h1 := hl1
              rw [hl0] at h1
              simpa using h1
            have hlb : l = [b] := by rw [hl0, hl1']
            -- l = [b], and b is the nil element
            obtain ⟨r, hrmem, hrnil⟩ := hnil
            have hrb : r = b := by
              rw [hlb] at hrmem
              simpa using hrmem
            subst hrb
            have hsb : s = [r] := by
              have hp := insertionSort?_perm hs
              rw [hlb] at hp
              exact List.perm_singleton.mp hp
            subst hsb
            constructor
            · intro _
              exact ⟨hlen2, r, by rw [hlb]; simp, hrnil⟩
            · intro _
              simp [orderedInsert?, hsa, hrnil]
          · -- everything is present: no panic
            push_neg at hnil
            have hpres : ∀ r ∈ s, (dashTitle? r).isSome := by
              intro r hr
              have : r ∈ l := (insertionSort?_perm hs).mem_iff.mp hr
              rcases hd : dashTitle? r with _ | v
              · exact absurd hd (hnil r this)
              · simp
            rw [orderedInsert?_of_isSome a s (by simp [hsa]) hpres]
            simp only [reduceCtorEq, false_iff, not_and, not_exists]
            intro _
            intro r hr
            rcases List.mem_cons.mp hr with rfl | hr'
            · simp [hsa]
            · rcases hd : dashTitle? r with _ | v
              · exact absurd hd (hnil r hr')
              · simp

theorem filter_titleD_orderedInsert (t : String) (a : ResultContext) :
    ∀ l : List ResultContext,
      (List.orderedInsert titleLe a l).filter (fun r => titleD r == t)
        = ((a :: l).filter (fun r => titleD r == t)) := by
  intro l
  induction l with
  | nil => rfl
  | cons b l ih =>
    rw [List.orderedInsert]
    by_cases hab : titleLe a b
    · rw [if_pos hab]
    · rw [if_neg hab]
      have hlt : titleD b < titleD a := lt_of_not_le hab
      cases pa : (titleD a == t) <;> cases pb : (titleD b == t) <;>
        simp only [List.filter_cons, pa, pb, ih, if_true, if_false] <;>
        simp_all

theorem filter_titleD_insertionSort (t : String) (l : List ResultContext) :
    (List.insertionSort titleLe l).filter (fun r => titleD r == t)
      = l.filter (fun r => titleD r == t) := by
  induction l with
  | nil => rfl
  | cons a l ih =>
    rw [List.insertionSort, filter_titleD_orderedInsert, List.filter_cons, List.filter_cons, ih]

theorem sorted_titleLt_of_nodup {g : List ResultContext}
    (hs : List.Sorted titleLe g) (hn : (g.map titleD).Nodup) : List.Sorted titleLt g := by
  have hne : g.Pairwise (fun a b => titleD a ≠ titleD b) := List.pairwise_map.mp hn
  exact (hs.and hne).imp (fun h => lt_of_le_of_ne h.1 h.2)

theorem insertionSort_eq_of_perm_of_nodup {l1 l2 : List ResultContext}
    (hp : l1.Perm l2) (hn : (l1.map titleD).Nodup) :
    List.insertionSort titleLe l1 = List.insertionSort titleLe l2 := by
  have hperm : (List.insertionSort titleLe l1).Perm (List.insertionSort titleLe l2) :=
    (List.perm_insertionSort titleLe l1).trans (hp.trans (List.perm_insertionSort titleLe l2).symm)
  have hn1 : ((List.insertionSort titleLe l1).map titleD).Nodup :=
    (((List.perm_insertionSort titleLe l1).map titleD).nodup_iff).mpr hn
  have hn2 : ((List.insertionSort titleLe l2).map titleD).Nodup :=
    ((hperm.map titleD).nodup_iff).mp hn1
  exact List.eq_of_perm_of_sorted hperm
    (sorted_titleLt_of_nodup (List.sorted_insertionSort titleLe l1) hn1)
    (sorted_titleLt_of_nodup (List.sorted_insertionSort titleLe l2) hn2)

/-! ### Claims -/

/-- C1 counterexample: at the entry with no fields set and a context carrying a
dashboard titled "dash1", the spec-side predicate says match, but the source's
`IsMatch` returns `false` — the code compares the entry's dashboard string
whenever the context carries a dashboard, even when the entry leaves it unset. -/
theorem ismatch_spec_counterexample :
    specIsMatch ⟨"", "", "", ""⟩
        ⟨⟨Severity.Error, "foo"⟩, ⟨"rule1", "Test Rule"⟩, some ⟨"dash1"⟩, none, none⟩ = true ∧
      ConfigurationEntry.IsMatch ⟨"", "", "", ""⟩
        ⟨⟨Severity.Error, "foo"⟩, ⟨"rule1", "Test Rule"⟩, some ⟨"dash1"⟩, none, none⟩ = false := by
  constructor <;> rfl

/-- C1 (amended): `IsMatch` returns `true` exactly when the entry's dashboard
string (empty when unset) equals the title of every dashboard the context
carries, likewise for the panel, and — only for the target — whenever the
context carries a target and the entry's index string is non-empty and parses
as an integer, that integer equals the target's index.  Comparison is driven
by presence of the context fields, not by which fields the entry sets. -/
theorem ismatch_characterization (ce : ConfigurationEntry) (r : ResultContext) :
    ce.IsMatch r = true ↔
      ((∀ d, r.Dashboard = some d → ce.Dashboard = d.Title) ∧
       (∀ p, r.Panel = some p → ce.Panel = p.Title) ∧
       (∀ t, r.Target = some t → ce.TargetIdx ≠ "" →
          ∀ i, atoi ce.TargetIdx = some i → i = t.Idx)) := by
  rw [isMatch_eq_checks]
  rcases hd : r.Dashboard with _ | d <;> rcases hp : r.Panel with _ | p <;>
    rcases ht : r.Target with _ | t <;>
    (try cases he : ce.TargetIdx == "") <;>
    (try rcases ha : atoi ce.TargetIdx with _ | i) <;>
    simp_all <;>
    aesop

/-- C1 witness: the characterization applied at the entry with no fields set
and a context with no scope fields. -/
theorem ismatch_characterization_witness :
    ConfigurationEntry.IsMatch ⟨"", "", "", ""⟩
      ⟨⟨Severity.Error, "foo"⟩, ⟨"rule1", "Test Rule"⟩, none, none, none⟩ = true :=
  (ismatch_characterization ⟨"", "", "", ""⟩
      ⟨⟨Severity.Error, "foo"⟩, ⟨"rule1", "Test Rule"⟩, none, none, none⟩).mpr
    ⟨fun d h => Option.noConfusion h, fun p h => Option.noConfusion h,
     fun t h => Option.noConfusion h⟩

/-- C2: when a context's rule name is matched by both the exclusion map and
the warning map of the same configuration, `Apply` runs the exclusion pass
first and the warning pass second, so the final severity is `Warning`. -/
theorem apply_warning_wins (cf : ConfigurationFile) (res : ResultContext)
    (_hx : passMatched cf.Exclusions res = true)
    (hw : passMatched cf.Warnings res = true) :
    (cf.Apply res).Result.Severity = Severity.Warning := by
  have hw' : passMatched cf.Warnings (applyExclusions cf res) = true := by
    rw [passMatched_applyExclusions]; exact hw
  simp [ConfigurationFile.Apply, applyWarnings, hw']

/-- C2 witness: a configuration excluding and warning on rule1 with empty
entry lists, applied to an errored rule1 context. -/
theorem apply_warning_wins_witness :
    (ConfigurationFile.Apply ⟨[("rule1", some ⟨"", []⟩)], [("rule1", some ⟨"", []⟩)]⟩
        ⟨⟨Severity.Error, "foo"⟩, ⟨"rule1", "Test Rule"⟩, none, none, none⟩).Result.Severity
      = Severity.Warning :=
  apply_warning_wins ⟨[("rule1", some ⟨"", []⟩)], [("rule1", some ⟨"", []⟩)]⟩
    ⟨⟨Severity.Error, "foo"⟩, ⟨"rule1", "Test Rule"⟩, none, none, none⟩ (by rfl) (by rfl)

/-- C3: adding results and then configuring produces exactly the same
`ResultSet` (severities, messages, order, attached config) as configuring
first and then adding the same results in the same order. -/
theorem configure_addResult_commute (c : ConfigurationFile) (l : List ResultContext) :
    (l.foldl ResultSet.AddResult emptyResultSet).Configure c
      = l.foldl ResultSet.AddResult (emptyResultSet.Configure c) := by
  rw [show emptyResultSet = (⟨[], none⟩ : ResultSet) from rfl, foldl_addResult_noconfig]
  rw [show ResultSet.Configure ⟨[], none⟩ c = (⟨[], some c⟩ : ResultSet) from rfl,
    foldl_addResult_config]
  simp [ResultSet.Configure]

/-- C4: `MaximumSeverity` of an empty `ResultSet` is the passing floor
`Success`; of a non-empty one it is the greatest severity among its results
under the order Success < Exclude < Warning < Error. -/
theorem maximumSeverity_spec (rs : ResultSet) :
    (rs.results = [] → rs.MaximumSeverity = Severity.Success) ∧
    (rs.results ≠ [] →
      rs.MaximumSeverity ∈ rs.results.map (fun r => r.Result.Severity)) ∧
    ∀ r ∈ rs.results, r.Result.Severity.toNat ≤ rs.MaximumSeverity.toNat := by
  obtain ⟨h1, -, h3⟩ := maxsev_foldl rs.results Severity.Success
  have hM : rs.MaximumSeverity = rs.results.foldl
      (fun rv res =>
        if rv.toNat < res.Result.Severity.toNat then res.Result.Severity else rv)
      Severity.Success := rfl
  refine ⟨fun h => by rw [hM, h]; rfl, fun hne => ?_, fun r hr => by rw [hM]; exact h3 r hr⟩
  rw [hM]
  rcases h1 with h1 | h1
  · rcases hl : rs.results with _ | ⟨a, l⟩
    · exact absurd hl hne
    · rw [hl] at h1 h3
      have ha := h3 a (List.mem_cons_self a l)
      rw [h1] at ha
      have haS : a.Result.Severity = Severity.Success :=
        severity_toNat_eq_zero (Nat.le_zero.mp ha)
      rw [h1]
      simp only [List.map_cons, List.mem_cons]
      exact Or.inl haS.symm
  · exact h1

/-- C4 witness: the theorem applied at an empty set and at a concrete
two-result set whose maximum is `Error`. -/
theorem maximumSeverity_spec_witness :
    ResultSet.MaximumSeverity ⟨[⟨⟨Severity.Warning, "w"⟩, ⟨"r", "d"⟩, none, none, none⟩,
          ⟨⟨Severity.Error, "e"⟩, ⟨"r", "d"⟩, none, none, none⟩], none⟩
        ∈ List.map (fun rc : ResultContext => rc.Result.Severity)
            ([⟨⟨Severity.Warning, "w"⟩, ⟨"r", "d"⟩, none, none, none⟩,
              ⟨⟨Severity.Error, "e"⟩, ⟨"r", "d"⟩, none, none, none⟩] :
              List ResultContext) ∧
      ResultSet.MaximumSeverity ⟨[], none⟩ = Severity.Success ∧
      Severity.toNat Severity.Warning ≤
        (ResultSet.MaximumSeverity
          ⟨[⟨⟨Severity.Warning, "w"⟩, ⟨"r", "d"⟩, none, none, none⟩,
            ⟨⟨Severity.Error, "e"⟩, ⟨"r", "d"⟩, none, none, none⟩], none⟩).toNat :=
  ⟨(maximumSeverity_spec
      ⟨[⟨⟨Severity.Warning, "w"⟩, ⟨"r", "d"⟩, none, none, none⟩,
        ⟨⟨Severity.Error, "e"⟩, ⟨"r", "d"⟩, none, none, none⟩], none⟩).2.1 (by decide),
   (maximumSeverity_spec ⟨[], none⟩).1 rfl,
   (maximumSeverity_spec
      ⟨[⟨⟨Severity.Warning, "w"⟩, ⟨"r", "d"⟩, none, none, none⟩,
        ⟨⟨Severity.Error, "e"⟩, ⟨"r", "d"⟩, none, none, none⟩], none⟩).2.2
     ⟨⟨Severity.Warning, "w"⟩, ⟨"r", "d"⟩, none, none, none⟩ (by decide)⟩

/-- C5: in each pass, an absent rule name leaves the context unchanged; a rule
present with an empty entry list matches unconditionally; a rule present with
a non-empty entry list matches exactly when some entry matches the context. -/
theorem pass_lookup_semantics (cf : ConfigurationFile) (res : ResultContext) :
    (lookupRule cf.Exclusions res.Rule.name = none → applyExclusions cf res = res) ∧
    (lookupRule cf.Warnings res.Rule.name = none → applyWarnings cf res = res) ∧
    (∀ cre, lookupRule cf.Exclusions res.Rule.name = some (some cre) → cre.Entries = [] →
      passMatched cf.Exclusions res = true) ∧
    (∀ cre, lookupRule cf.Warnings res.Rule.name = some (some cre) → cre.Entries = [] →
      passMatched cf.Warnings res = true) ∧
    (∀ cre, lookupRule cf.Exclusions res.Rule.name = some (some cre) → cre.Entries ≠ [] →
      (passMatched cf.Exclusions res = true ↔ ∃ ce ∈ cre.Entries, ce.IsMatch res = true)) ∧
    (∀ cre, lookupRule cf.Warnings res.Rule.name = some (some cre) → cre.Entries ≠ [] →
      (passMatched cf.Warnings res = true ↔ ∃ ce ∈ cre.Entries, ce.IsMatch res = true)) :=
  ⟨fun h => applyExclusions_not_matched (passMatched_of_lookup_none h),
   fun h => applyWarnings_not_matched (passMatched_of_lookup_none h),
   fun _ h he => passMatched_of_empty_entries h he,
   fun _ h he => passMatched_of_empty_entries h he,
   fun _ h he => passMatched_of_nonempty_entries h he,
   fun _ h he => passMatched_of_nonempty_entries h he⟩

/-- C5 witness: the three cases at concrete configurations and a rule1
context. -/
theorem pass_lookup_semantics_witness :
    applyExclusions ⟨[], []⟩
        ⟨⟨Severity.Error, "foo"⟩, ⟨"rule1", "Test Rule"⟩, none, none, none⟩
      = ⟨⟨Severity.Error, "foo"⟩, ⟨"rule1", "Test Rule"⟩, none, none, none⟩ ∧
    passMatched ([("rule1", some ⟨"", []⟩)] : RuleEntryMap)
        ⟨⟨Severity.Error, "foo"⟩, ⟨"rule1", "Test Rule"⟩, none, none, none⟩ = true ∧
    (passMatched ([("rule1", some ⟨"", [⟨"", "dash1", "", ""⟩]⟩)] : RuleEntryMap)
        ⟨⟨Severity.Error, "foo"⟩, ⟨"rule1", "Test Rule"⟩, some ⟨"dash1"⟩, none, none⟩ = true ↔
      ∃ ce ∈ [(⟨"", "dash1", "", ""⟩ : ConfigurationEntry)],
        ce.IsMatch ⟨⟨Severity.Error, "foo"⟩, ⟨"rule1", "Test Rule"⟩, some ⟨"dash1"⟩, none, none⟩
          = true) :=
  ⟨(pass_lookup_semantics ⟨[], []⟩ _).1 rfl,
   (pass_lookup_semantics ⟨[("rule1", some ⟨"", []⟩)], []⟩ _).2.2.1 ⟨"", []⟩ rfl rfl,
   (pass_lookup_semantics ⟨[("rule1", some ⟨"", [⟨"", "dash1", "", ""⟩]⟩)], []⟩ _).2.2.2.2.1
     ⟨"", [⟨"", "dash1", "", ""⟩]⟩ rfl (by simp)⟩

/-- C6: a matching exclusion pass sets severity `Exclude` and appends
" (Excluded)" to the existing message; a matching warning pass sets severity
`Warning` and leaves the message unchanged. -/
theorem pass_effects (cf : ConfigurationFile) (res : ResultContext) :
    (passMatched cf.Exclusions res = true →
      (applyExclusions cf res).Result.Severity = Severity.Exclude ∧
      (applyExclusions cf res).Result.Message = res.Result.Message ++ " (Excluded)") ∧
    (passMatched cf.Warnings res = true →
      (applyWarnings cf res).Result.Severity = Severity.Warning ∧
      (applyWarnings cf res).Result.Message = res.Result.Message) := by
  constructor
  · intro h
    simp [applyExclusions, h]
  · intro h
    simp [applyWarnings, h]

/-- C6 witness: both effects at a concrete excluding-and-warning
configuration. -/
theorem pass_effects_witness :
    (applyExclusions ⟨[("rule1", some ⟨"", []⟩)], [("rule1", some ⟨"", []⟩)]⟩
        ⟨⟨Severity.Error, "foo"⟩, ⟨"rule1", "Test Rule"⟩, none, none, none⟩).Result.Message
      = "foo" ++ " (Excluded)" ∧
    (applyWarnings ⟨[("rule1", some ⟨"", []⟩)], [("rule1", some ⟨"", []⟩)]⟩
        ⟨⟨Severity.Error, "foo"⟩, ⟨"rule1", "Test Rule"⟩, none, none, none⟩).Result.Message
      = "foo" :=
  ⟨((pass_effects ⟨[("rule1", some ⟨"", []⟩)], [("rule1", some ⟨"", []⟩)]⟩ _).1 (by rfl)).2,
   ((pass_effects ⟨[("rule1", some ⟨"", []⟩)], [("rule1", some ⟨"", []⟩)]⟩ _).2 (by rfl)).2⟩

/-- C9: an entry whose `TargetIdx` is non-empty but does not parse as an
integer behaves exactly as if the index were unset: `IsMatch` agrees with the
same entry with `TargetIdx := ""`, and its verdict does not depend on the
index of the target the context carries. -/
theorem ismatch_unparsable_targetIdx (ce : ConfigurationEntry) (r : ResultContext) (t : Target)
    (h1 : ce.TargetIdx ≠ "") (h2 : atoi ce.TargetIdx = none) (h3 : r.Target = some t) :
    ce.IsMatch r = ConfigurationEntry.IsMatch { ce with TargetIdx := "" } r ∧
    ∀ t' : Target, ConfigurationEntry.IsMatch ce { r with Target := some t' }
      = ce.IsMatch r := by
  constructor
  · unfold ConfigurationEntry.IsMatch
    rw [h3]
    simp [h2, bne, h1]
  · intro t'
    unfold ConfigurationEntry.IsMatch
    rw [h3]
    simp [h2]

/-- C9 witness: the entry with `TargetIdx := "foo"` (syntax error) and the
entry with `TargetIdx := "99999999999999999999"` (a digit string beyond the
int64 range, Go's `ErrRange`), each against a context carrying the target at
index 5. -/
theorem ismatch_unparsable_targetIdx_witness :
    (ConfigurationEntry.IsMatch ⟨"", "", "", "foo"⟩
        ⟨⟨Severity.Error, "m"⟩, ⟨"rule1", "Test Rule"⟩, none, none, some ⟨5, "q"⟩⟩
      = ConfigurationEntry.IsMatch ⟨"", "", "", ""⟩
        ⟨⟨Severity.Error, "m"⟩, ⟨"rule1", "Test Rule"⟩, none, none, some ⟨5, "q"⟩⟩) ∧
    (ConfigurationEntry.IsMatch ⟨"", "", "", "99999999999999999999"⟩
        ⟨⟨Severity.Error, "m"⟩, ⟨"rule1", "Test Rule"⟩, none, none, some ⟨5, "q"⟩⟩
      = ConfigurationEntry.IsMatch ⟨"", "", "", ""⟩
        ⟨⟨Severity.Error, "m"⟩, ⟨"rule1", "Test Rule"⟩, none, none, some ⟨5, "q"⟩⟩) :=
  ⟨(ismatch_unparsable_targetIdx ⟨"", "", "", "foo"⟩
      ⟨⟨Severity.Error, "m"⟩, ⟨"rule1", "Test Rule"⟩, none, none, some ⟨5, "q"⟩⟩
      ⟨5, "q"⟩ (by decide) (by decide) rfl).1,
   (ismatch_unparsable_targetIdx ⟨"", "", "", "99999999999999999999"⟩
      ⟨⟨Severity.Error, "m"⟩, ⟨"rule1", "Test Rule"⟩, none, none, some ⟨5, "q"⟩⟩
      ⟨5, "q"⟩ (by decide) (by decide) rfl).1⟩

/-- C8: `ByRule` at key `n` (under presence of the dashboards its comparison
dereferences) holds exactly the contexts produced by rule `n`, as a
permutation of their insertion-order subsequence, sorted by dashboard title;
contexts with equal titles keep their original relative order (the filter at
any one title is untouched); and for groups with pairwise distinct titles the
result is the same for any insertion order of the same contexts. -/
theorem byRule_spec (rs : ResultSet) (n : String)
    (h : ∀ r ∈ groupByRule rs.results n, r.Dashboard ≠ none) :
    ∃ g, rs.ByRule n = some g ∧
      (∀ r ∈ g, r.Rule.name = n) ∧
      g.Perm (groupByRule rs.results n) ∧
      List.Sorted titleLe g ∧
      (∀ t, g.filter (fun r => titleD r == t)
          = (groupByRule rs.results n).filter (fun r => titleD r == t)) ∧
      ∀ rs2 : ResultSet, rs2.results.Perm rs.results →
        ((groupByRule rs.results n).map titleD).Nodup →
        rs2.ByRule n = rs.ByRule n := by
  have h' : ∀ r ∈ groupByRule rs.results n, (dashTitle? r).isSome := by
    intro r hr
    rcases hD : r.Dashboard with _ | d
    · exact absurd hD (h r hr)
    · simp [dashTitle?, hD]
  refine ⟨List.insertionSort titleLe (groupByRule rs.results n), ?_, ?_, ?_, ?_, ?_, ?_⟩
  · exact insertionSort?_of_isSome _ h'
  · intro r hr
    have hrg : r ∈ groupByRule rs.results n := (List.mem_insertionSort titleLe).mp hr
    exact eq_of_beq (by simpa using (List.mem_filter.mp hrg).2)
  · exact List.perm_insertionSort titleLe _
  · exact List.sorted_insertionSort titleLe _
  · intro t
    exact filter_titleD_insertionSort t _
  · intro rs2 hp hnd
    have hpg : (groupByRule rs2.results n).Perm (groupByRule rs.results n) :=
      hp.filter _
    have h2' : ∀ r ∈ groupByRule rs2.results n, (dashTitle? r).isSome :=
      fun r hr => h' r (hpg.mem_iff.mp hr)
    rw [show rs2.ByRule n = insertionSort? (groupByRule rs2.results n) from rfl,
      show rs.ByRule n = insertionSort? (groupByRule rs.results n) from rfl,
      insertionSort?_of_isSome _ h2', insertionSort?_of_isSome _ h']
    exact congrArg some
      (insertionSort_eq_of_perm_of_nodup hpg (((hpg.map titleD).nodup_iff).mpr hnd))

/-- C8 witness: a two-context rule group inserted in reverse title order. -/
theorem byRule_spec_witness :
    ∃ g, ResultSet.ByRule
        ⟨[⟨⟨Severity.Error, "e1"⟩, ⟨"r", "d"⟩, some ⟨"dashB"⟩, none, none⟩,
          ⟨⟨Severity.Error, "e2"⟩, ⟨"r", "d"⟩, some ⟨"dashA"⟩, none, none⟩], none⟩ "r"
        = some g ∧
      ∀ r ∈ g, r.Rule.name = "r" := by
  obtain ⟨g, h1, h2, -, -, -, -⟩ :=
    byRule_spec
      ⟨[⟨⟨Severity.Error, "e1"⟩, ⟨"r", "d"⟩, some ⟨"dashB"⟩, none, none⟩,
        ⟨⟨Severity.Error, "e2"⟩, ⟨"r", "d"⟩, some ⟨"dashA"⟩, none, none⟩], none⟩ "r"
      (by decide)
  exact ⟨g, h1, h2⟩

/-- C10: `ByRule`'s sort comparison dereferences `Dashboard.Title` with no nil
check; the modelled sort is defined (`some`) exactly unless the rule group has
at least two contexts and one of them carries a nil `Dashboard`. -/
theorem byRule_nil_dashboard_panic (rs : ResultSet) (n : String) :
    rs.ByRule n = none ↔
      2 ≤ (groupByRule rs.results n).length ∧
        ∃ r ∈ groupByRule rs.results n, r.Dashboard = none := by
  rw [show rs.ByRule n = insertionSort? (groupByRule rs.results n) from rfl,
    insertionSort?_eq_none_iff]
  simp [dashTitle?, Option.map_eq_none']

/-- C10 witness: two same-rule contexts, the second with a nil dashboard —
the modelled `ByRule` hits the nil dereference. -/
theorem byRule_nil_dashboard_panic_witness :
    ResultSet.ByRule
      ⟨[⟨⟨Severity.Error, "e1"⟩, ⟨"r", "d"⟩, some ⟨"dashA"⟩, none, none⟩,
        ⟨⟨Severity.Error, "e2"⟩, ⟨"r", "d"⟩, none, none, none⟩], none⟩ "r" = none :=
  (byRule_nil_dashboard_panic
      ⟨[⟨⟨Severity.Error, "e1"⟩, ⟨"r", "d"⟩, some ⟨"dashA"⟩, none, none⟩,
        ⟨⟨Severity.Error, "e2"⟩, ⟨"r", "d"⟩, none, none, none⟩], none⟩ "r").mpr
    ⟨by decide, ⟨⟨Severity.Error, "e2"⟩, ⟨"r", "d"⟩, none, none, none⟩, by decide, rfl⟩

/-- C7: the panel job/instance rule on the test dashboard/panel — a query
with `job=~"$job"` and `instance=~"$instance"` selectors passes with "OK"; an
unparsable query also passes with "OK"; and the four defective queries fail
in order with the messages "job selector not found", "instance selector not
found", "job selector is =, not =~" and "job selector is $instance, not
$job", each prefixed with the dashboard and panel titles. -/
theorem panel_job_instance_rule_cases :
    panelJobInstanceLintPanel ⟨"dashboard"⟩
        ⟨"panel", "singlestat",
          [⟨0, "sum(rate(foo\x7bjob=~\x22$job\x22,instance=~\x22$instance\x22\x7d[5m]))"⟩]⟩
      = ⟨Severity.Success, "OK"⟩ ∧
    panelJobInstanceLintPanel ⟨"dashboard"⟩
        ⟨"panel", "singlestat", [⟨0, "foo(bar.baz)"⟩]⟩
      = ⟨Severity.Success, "OK"⟩ ∧
    panelJobInstanceLintPanel ⟨"dashboard"⟩
        ⟨"panel", "singlestat", [⟨0, "sum(rate(foo[5m]))"⟩]⟩
      = ⟨Severity.Error,
          "Dashboard \x27dashboard\x27, panel \x27panel\x27 invalid PromQL query \x27sum(rate(foo[5m]))\x27: job selector not found"⟩ ∧
    panelJobInstanceLintPanel ⟨"dashboard"⟩
        ⟨"panel", "singlestat", [⟨0, "sum(rate(foo\x7bjob=~\x22$job\x22\x7d[5m]))"⟩]⟩
      = ⟨Severity.Error,
          "Dashboard \x27dashboard\x27, panel \x27panel\x27 invalid PromQL query \x27sum(rate(foo\x7bjob=~\x22$job\x22\x7d[5m]))\x27: instance selector not found"⟩ ∧
    panelJobInstanceLintPanel ⟨"dashboard"⟩
        ⟨"panel", "singlestat",
          [⟨0, "sum(rate(foo\x7bjob=\x22$job\x22,instance=\x22$instance\x22\x7d[5m]))"⟩]⟩
      = ⟨Severity.Error,
          "Dashboard \x27dashboard\x27, panel \x27panel\x27 invalid PromQL query \x27sum(rate(foo\x7bjob=\x22$job\x22,instance=\x22$instance\x22\x7d[5m]))\x27: job selector is =, not =~"⟩ ∧
    panelJobInstanceLintPanel ⟨"dashboard"⟩
        ⟨"panel", "singlestat",
          [⟨0, "sum(rate(foo\x7bjob=~\x22$instance\x22,instance=~\x22$job\x22\x7d[5m]))"⟩]⟩
      = ⟨Severity.Error,
          "Dashboard \x27dashboard\x27, panel \x27panel\x27 invalid PromQL query \x27sum(rate(foo\x7bjob=~\x22$instance\x22,instance=~\x22$job\x22\x7d[5m]))\x27: job selector is $instance, not $job"⟩ := by
  refine ⟨?_, ?_, ?_, ?_, ?_, ?_⟩ <;> decide

end DashboardLinter
